import Mathlib

/-!
Shallow embedding of the upload/backup core of the clickhouse-backup
repository, covering:

* `separateParts` (src/unnamed/part_000) — the part-file batcher,
* `Upload` (src/unnamed/part_000) — the legacy upload pathway,
* `populateBackupShardField`, `isDiskTypeObject`, `isDiskTypeEncryptedObject`,
  `buildEmbeddedLocationS3`, `getTablesDiffFromLocal`, `getTablesDiffFromRemote`
  (src/pkg/backup/backuper.go).

External collaborators (the ClickHouse driver, the storage destination, the
OS filesystem, JSON marshalling) are modelled as explicit oracle parameters;
Go `int64` byte limits are modelled as `Int`, file sizes (always nonnegative
for regular files per `os.FileInfo`) as `Nat`.
-/

set_option autoImplicit false

namespace ClickhouseBackup

/-! ## String helpers

Character-level models of the Go stdlib string functions the source uses.
Go compares and slices bytes; the model works on the character list of a
`String`, which agrees on the ASCII data (paths, names) the code handles.
-/

/-- Model of Go `strings.HasPrefix s pre`. -/
def strHasPre (s pre : String) : Bool :=
  pre.data.isPrefixOf s.data

/-- Model of Go `strings.TrimPrefix s pre`. -/
def trimPre (s pre : String) : String :=
  if pre.data.isPrefixOf s.data then { data := s.data.drop pre.data.length } else s

/-- Byte-wise lexicographic `<` of Go strings, on the character lists. -/
def listLtB : List Char → List Char → Bool
  | _, [] => false
  | [], _ :: _ => true
  | a :: as, b :: bs => if a < b then true else if b < a then false else listLtB as bs

/-- Model of Go `a < b` on strings. -/
def strLtB (a b : String) : Bool :=
  listLtB a.data b.data

/-- Model of Go `path.Join` for two components (`path.Clean` normalization of
inner slashes is elided; empty components are handled as in Go). -/
def pathJoin (a b : String) : String :=
  if a = "" then b else if b = "" then a else a ++ "/" ++ b

/-- First `n` characters of a string (Go slice `s[0:n]` on ASCII data). -/
def strTake (s : String) (n : Nat) : String :=
  { data := s.data.take n }

/-! ## PartBatcher: `separateParts` (src/unnamed/part_000)

`filepath.Walk` is modelled by giving, per walked root, the sequence of
callback invocations: either a visited entry (path, size, regular-file flag)
or a visit error (`fn(path, nil, err)`).  The source callback returns the
error, which stops that walk; crucially the source then DISCARDS the value
returned by `filepath.Walk`, so the walk error never reaches the caller. -/

/-- One `filepath.Walk` callback invocation. -/
inductive WalkItem where
  | entry (filePath : String) (size : Nat) (isRegular : Bool)
  | failure (msg : String)

/-- Model of `metadata.Part`: only the `Name` field is read here. -/
structure Part where
  name : String

/-- The mutable state of `separateParts`: the running batch size, the current
batch, and the closed batches. -/
structure SepState where
  size : Nat
  files : List String
  result : List (List String)

/-- The walk over one part directory, threading the `separateParts` closure
state exactly as the source callback does: skip non-regular files, flush the
current batch when the next file would exceed `maxSize`, then append the
trimmed path and add the size.  A visit error stops this walk (the callback
returns it), leaving the state as is. -/
def walkPart (basePath : String) (maxSize : Int) : SepState → List WalkItem → SepState
  | st, [] => st
  | st, WalkItem.failure _ :: _ => st
  | st, WalkItem.entry fp sz reg :: rest =>
    if reg = false then
      walkPart basePath maxSize st rest
    else
      let st1 :=
        if ((st.size + sz : Nat) : Int) > maxSize then
          { size := 0, files := [], result := st.result ++ [st.files] }
        else st
      walkPart basePath maxSize
        { size := st1.size + sz
          files := st1.files ++ [trimPre fp basePath]
          result := st1.result } rest

/-- The fold of `separateParts` over all parts: the filesystem oracle `fs`
gives the walk trace rooted at each `path.Join(basePath, part.Name)`. -/
def sepRun (fs : String → List WalkItem) (basePath : String) (parts : List Part)
    (maxSize : Int) : SepState :=
  parts.foldl (fun st p => walkPart basePath maxSize st (fs (pathJoin basePath p.name)))
    { size := 0, files := [], result := [] }

/-- Model of `separateParts(basePath, parts, maxSize)`.  The second component
is the returned `error`: the source ends with `return result, nil` and drops
the value returned by `filepath.Walk`, so it is always `none`. -/
def separateParts (fs : String → List WalkItem) (basePath : String) (parts : List Part)
    (maxSize : Int) : List (List String) × Option String :=
  let st := sepRun fs basePath parts maxSize
  (if st.files.length > 0 then st.result ++ [st.files] else st.result, none)

/-- The relative paths of the regular files actually visited by one walk
(visit order, truncated at the first visit error, exactly as `walkPart`). -/
def walkedFiles (basePath : String) : List WalkItem → List String
  | [] => []
  | WalkItem.failure _ :: _ => []
  | WalkItem.entry fp _ reg :: rest =>
    if reg = false then walkedFiles basePath rest
    else trimPre fp basePath :: walkedFiles basePath rest

/-- All files walked by `separateParts`, across the parts in order. -/
def allWalkedFiles (fs : String → List WalkItem) (basePath : String)
    (parts : List Part) : List String :=
  (parts.map fun p => walkedFiles basePath (fs (pathJoin basePath p.name))).flatten

/-! ### Size-instrumented variant

`separateParts` returns only path lists; to state the byte bound on each
batch, `sizedBatches` runs the identical control flow but records each file's
size next to its path.  `separateParts` is proved to be its path projection. -/

/-- State of the instrumented run: as `SepState` but keeping sizes. -/
structure SepStateS where
  size : Nat
  files : List (String × Nat)
  result : List (List (String × Nat))

/-- Instrumented `walkPart`: identical branching, sizes kept. -/
def walkPartS (basePath : String) (maxSize : Int) : SepStateS → List WalkItem → SepStateS
  | st, [] => st
  | st, WalkItem.failure _ :: _ => st
  | st, WalkItem.entry fp sz reg :: rest =>
    if reg = false then
      walkPartS basePath maxSize st rest
    else
      let st1 :=
        if ((st.size + sz : Nat) : Int) > maxSize then
          { size := 0, files := [], result := st.result ++ [st.files] }
        else st
      walkPartS basePath maxSize
        { size := st1.size + sz
          files := st1.files ++ [(trimPre fp basePath, sz)]
          result := st1.result } rest

/-- Instrumented `sepRun`. -/
def sepRunS (fs : String → List WalkItem) (basePath : String) (parts : List Part)
    (maxSize : Int) : SepStateS :=
  parts.foldl (fun st p => walkPartS basePath maxSize st (fs (pathJoin basePath p.name)))
    { size := 0, files := [], result := [] }

/-- The batches of `separateParts` with each file's size attached. -/
def sizedBatches (fs : String → List WalkItem) (basePath : String) (parts : List Part)
    (maxSize : Int) : List (List (String × Nat)) :=
  let st := sepRunS fs basePath parts maxSize
  if st.files.length > 0 then st.result ++ [st.files] else st.result

/-- Cumulative byte size of a sized batch. -/
def sumSizes (b : List (String × Nat)) : Nat :=
  (b.map Prod.snd).sum

/-- The batching bound: a batch is within the limit, or is a single file that
is itself larger than the limit. -/
def batchOKb (maxSize : Int) (b : List (String × Nat)) : Bool :=
  decide ((sumSizes b : Int) ≤ maxSize) ||
    (match b with
     | [(_, s)] => decide (maxSize < (s : Int))
     | _ => false)

/-- Forgetting the recorded sizes of an instrumented state. -/
def projState (st : SepStateS) : SepState :=
  { size := st.size, files := st.files.map Prod.fst, result := st.result.map (List.map Prod.fst) }

/-- The invariant of the instrumented run: the running size counter equals
the current batch's cumulative size, and the current batch and every closed
batch satisfy the batching bound. -/
def goodS (maxSize : Int) (st : SepStateS) : Prop :=
  st.size = sumSizes st.files ∧ batchOKb maxSize st.files = true
    ∧ ∀ b ∈ st.result, batchOKb maxSize b = true

/-! ## The legacy upload pathway: `Upload` (src/unnamed/part_000)

`Upload` talks to the ClickHouse server, the local filesystem and the remote
storage destination.  Those collaborators are an `UploadWorld` of oracles; the
outward-visible interactions performed before returning are recorded as an
effect trace, so "returns before connecting / uploads nothing" is the trace
being free of the corresponding effects. -/

/-- The outward-visible interactions of `Upload`. -/
inductive UploadEffect where
  | printLocalBackups
  | chConnect
  | bdConnect
  | streamUpload (base : String) (files : List String) (remote : String)
  | putFile (remote : String)
  | removeOldBackups
deriving DecidableEq

/-- The config fields `Upload` reads. -/
structure UploadConfig where
  remoteStorage : String
  maxFileSize : Int
  archiveExt : String

/-- A disk as returned by `ch.GetDisks` (name and path only). -/
structure NamedDisk where
  name : String
  path : String

/-- The fields of a `metadata.TableMetadata` that `Upload` reads.  `parts` is
the `Parts` disk-name→parts map, as an ordered association list (Go map
iteration order is unspecified; the model fixes one order). -/
structure TableUpload where
  database : String
  table : String
  uuid : String
  parts : List (String × List Part)

/-- The external collaborators of `Upload`: each field is the outcome the
corresponding call would produce (`some e` / `Except.error e` = the Go error). -/
structure UploadWorld where
  chConnect : Option String
  newBackupDestination : Option String
  bdKind : String
  bdConnect : Option String
  getLocalBackup : Option String
  getDefaultPath : Except String String
  getDisks : Except String (List NamedDisk)
  stat : String → Option String
  parseSchemaPattern : String → String → List TableUpload × Option String
  tablePathEncode : String → String
  fs : String → List WalkItem
  compressedStreamUpload : String → List String → String → Option String
  marshalTable : TableUpload → List (String × List String) → Except String String
  putFile : String → String → Option String
  readFile : String → Except String String
  removeOldBackups : Option String

/-- Go map lookup `diskMap[disk]` on the map built from the disk list
(missing key yields the zero value `""`; disk names are assumed distinct, as
`ch.GetDisks` returns them). -/
def diskMapLookup (m : List NamedDisk) (k : String) : String :=
  match m.find? (fun d => d.name == k) with
  | some d => d.path
  | none => ""

/-- The inner `for i, p := range parts` loop of `Upload`: upload each batch as
`<disk>_<i+1>.<ext>` under the remote shadow directory, recording the archive
names; an upload error aborts with `can't upload: …`. -/
def uploadBatchesLoop (w : UploadWorld) (backupPath remoteBase disk ext : String) :
    List (List String) → Nat → List String → List UploadEffect →
    List UploadEffect × List String × Option String
  | [], _, names, eff => (eff, names, none)
  | p :: rest, i, names, eff =>
    let fileName := disk ++ "_" ++ toString (i + 1) ++ "." ++ ext
    let names := names ++ [fileName]
    let remoteDataFile := pathJoin remoteBase fileName
    let eff := eff ++ [UploadEffect.streamUpload backupPath p remoteDataFile]
    match w.compressedStreamUpload backupPath p remoteDataFile with
    | some e => (eff, names, some ("can't upload: " ++ e))
    | none => uploadBatchesLoop w backupPath remoteBase disk ext rest (i + 1) names eff

/-- The `for disk := range table.Parts` loop of `Upload`: batch the disk's
parts with `separateParts`, then upload the batches. -/
def uploadDisksLoop (w : UploadWorld) (cfg : UploadConfig)
    (backupName : String) (diskMap : List NamedDisk) (uuid remoteBase : String) :
    List (String × List Part) → List (String × List String) → List UploadEffect →
    List UploadEffect × List (String × List String) × Option String
  | [], files, eff => (eff, files, none)
  | (disk, dparts) :: rest, files, eff =>
    let backupPath :=
      pathJoin (pathJoin (pathJoin (pathJoin (diskMapLookup diskMap disk) "backup")
        backupName) "shadow") uuid
    match separateParts w.fs backupPath dparts cfg.maxFileSize with
    | (_, some e) => (eff, files, some e)
    | (batches, none) =>
      match uploadBatchesLoop w backupPath remoteBase disk cfg.archiveExt batches 0 [] eff with
      | (eff1, names, some e) => (eff1, files ++ [(disk, names)], some e)
      | (eff1, names, none) =>
        uploadDisksLoop w cfg backupName diskMap uuid remoteBase rest
          (files ++ [(disk, names)]) eff1

/-- The `for _, table := range tablesForUpload` loop of `Upload`: per table,
upload the data batches (unless schema-only), then the per-table metadata. -/
def uploadTablesLoop (w : UploadWorld) (cfg : UploadConfig)
    (backupName : String) (schemaOnly : Bool) (diskMap : List NamedDisk) :
    List TableUpload → List UploadEffect → List UploadEffect × Option String
  | [], eff => (eff, none)
  | t :: rest, eff =>
    let uuid :=
      if t.uuid ≠ "" then pathJoin (strTake t.uuid 3) t.uuid
      else pathJoin (w.tablePathEncode t.database) (w.tablePathEncode t.table)
    let remoteBase :=
      pathJoin (pathJoin (pathJoin backupName "shadow") (w.tablePathEncode t.database))
        (w.tablePathEncode t.table)
    match (if schemaOnly then (eff, [], none)
           else uploadDisksLoop w cfg backupName diskMap uuid remoteBase t.parts [] eff) with
    | (eff1, _, some e) => (eff1, some e)
    | (eff1, files, none) =>
      match w.marshalTable t files with
      | Except.error e => (eff1, some ("can't marshal json: " ++ e))
      | Except.ok content =>
        let remoteTableMetaFile :=
          pathJoin (pathJoin (pathJoin backupName "metadata") (w.tablePathEncode t.database))
            (w.tablePathEncode t.table ++ ".json")
        let eff2 := eff1 ++ [UploadEffect.putFile remoteTableMetaFile]
        match w.putFile remoteTableMetaFile content with
        | some e => (eff2, some ("can't upload: " ++ e))
        | none => uploadTablesLoop w cfg backupName schemaOnly diskMap rest eff2

/-- Model of `Upload(cfg, backupName, tablePattern, diffFrom, schemaOnly)`
(src/unnamed/part_000): the effect trace it performs and the error it returns
(`none` = the Go `nil`).  The guards appear in source order: remote storage
`"none"`, empty backup name, then the unsupported `diffFrom`. -/
def Upload (w : UploadWorld) (cfg : UploadConfig)
    (backupName tablePattern diffFrom : String) (schemaOnly : Bool) :
    List UploadEffect × Option String :=
  if cfg.remoteStorage = "none" then ([], none)
  else if backupName = "" then ([UploadEffect.printLocalBackups], some "select backup for upload")
  else if diffFrom ≠ "" then ([], some "diff-from is not supported yet")
  else
    match w.chConnect with
    | some e => ([UploadEffect.chConnect], some ("can't connect to clickhouse: " ++ e))
    | none =>
      let eff := [UploadEffect.chConnect]
      match w.newBackupDestination with
      | some e => (eff, some e)
      | none =>
        match w.bdConnect with
        | some e =>
          (eff ++ [UploadEffect.bdConnect],
            some ("can't connect to " ++ w.bdKind ++ ": " ++ e))
        | none =>
          let eff := eff ++ [UploadEffect.bdConnect]
          match w.getLocalBackup with
          | some e => (eff, some ("can't upload: " ++ e))
          | none =>
            match w.getDefaultPath with
            | Except.error _ => (eff, some "unknown clickhouse data path")
            | Except.ok defaultDataPath =>
              match w.getDisks with
              | Except.error e => (eff, some e)
              | Except.ok disks =>
                let metadataPath :=
                  pathJoin (pathJoin (pathJoin defaultDataPath "backup") backupName) "metadata"
                match w.stat metadataPath with
                | some e => (eff, some e)
                | none =>
                  -- the source never checks the error returned by parseSchemaPattern
                  let tablesForUpload := (w.parseSchemaPattern metadataPath tablePattern).1
                  match uploadTablesLoop w cfg backupName schemaOnly disks tablesForUpload eff with
                  | (eff1, some e) => (eff1, some e)
                  | (eff1, none) =>
                    let backupMetadataPath :=
                      pathJoin (pathJoin (pathJoin defaultDataPath "backup") backupName)
                        "metadata.json"
                    match w.readFile backupMetadataPath with
                    | Except.error e => (eff1, some e)
                    | Except.ok body =>
                      let remoteBackupMetaFile := pathJoin backupName "metadata.json"
                      let eff2 := eff1 ++ [UploadEffect.putFile remoteBackupMetaFile]
                      match w.putFile remoteBackupMetaFile body with
                      | some e => (eff2, some ("can't upload: " ++ e))
                      | none =>
                        let eff3 := eff2 ++ [UploadEffect.removeOldBackups]
                        match w.removeOldBackups with
                        | some e => (eff3, some ("can't remove old backups: " ++ e))
                        | none => (eff3, none)

/-! ## ShardAssigner: `populateBackupShardField` (src/pkg/backup/backuper.go)

`doesShard`, `shardFuncByName` and the sharder live in a repository file not
under src/; the claims only condition on their outcomes, so they enter as
parameters: the boolean `doesShard(mode)`, the error of `CanShardOperation`,
whether `b.bs` was preset, the error of `shardFuncByName(mode)`, and the
result of `determineShards`. -/

/-- `clickhouse.ShardBackupType`: Full, Schema, None. -/
inductive ShardBackupType where
  | full
  | schema
  | none
deriving DecidableEq

/-- The fields of `clickhouse.Table` that `populateBackupShardField` touches. -/
structure Table where
  database : String
  name : String
  skip : Bool
  backupType : ShardBackupType
deriving DecidableEq

/-- The shard assignment computed by `determineShards`: `inShard(db, table)`
says whether this replica holds the full copy, or fails. -/
structure ShardAssignment where
  inShard : String → String → Except String Bool

/-- The first loop of `populateBackupShardField`: every table defaults to a
full backup unless it is to be skipped. -/
def defaultShardTypes (tables : List Table) : List Table :=
  tables.map fun t =>
    { t with backupType := if t.skip then ShardBackupType.none else ShardBackupType.full }

/-- The final loop of `populateBackupShardField`: skipped tables are passed
over; a failing `inShard` lookup returns immediately (tables already visited
keep their new types, the rest keep their defaults); tables not in shard are
downgraded to schema-only. -/
def assignLoop (a : ShardAssignment) : List Table → List Table × Option String
  | [] => ([], none)
  | t :: rest =>
    if t.skip then
      let r := assignLoop a rest
      (t :: r.1, r.2)
    else
      match a.inShard t.database t.name with
      | Except.error e => (t :: rest, some e)
      | Except.ok fullBackup =>
        let t1 := if fullBackup then t else { t with backupType := ShardBackupType.schema }
        let r := assignLoop a rest
        (t1 :: r.1, r.2)

/-- Model of `populateBackupShardField`: returns the table slice as the Go
in-place mutation leaves it, plus the returned error. -/
def populateBackupShardField (doesShard : Bool) (canShardOperation : Option String)
    (bsPreset : Bool) (shardFuncByName : Except String Unit)
    (determineShards : Except String ShardAssignment)
    (tables : List Table) : List Table × Option String :=
  let tables := defaultShardTypes tables
  if doesShard = false then (tables, none)
  else
    match canShardOperation with
    | some e => (tables, some e)
    | none =>
      match (if bsPreset then Except.ok () else shardFuncByName) with
      | Except.error e => (tables, some ("could not determine shards for tables: " ++ e))
      | Except.ok _ =>
        match determineShards with
        | Except.error e => (tables, some e)
        | Except.ok a => assignLoop a tables

/-- No table of the slice has been downgraded to a schema-only backup. -/
def noSchemaDowngrade (ts : List Table) : Bool :=
  ts.all fun t => !(t.backupType == ShardBackupType.schema)

/-- Each table's type is its default, except that a non-skipped table may
have been downgraded to schema-only. -/
def tablesShapeOK (ts : List Table) : Bool :=
  ts.all fun t =>
    if t.skip then t.backupType == ShardBackupType.none
    else t.backupType == ShardBackupType.full || t.backupType == ShardBackupType.schema

/-! ## DiskClassifier (src/pkg/backup/backuper.go) -/

/-- The fields of `clickhouse.Disk` the classifier reads. -/
structure Disk where
  name : String
  path : String
  type : String
deriving DecidableEq

/-- Model of `isDiskTypeObject`. -/
def isDiskTypeObject (diskType : String) : Bool :=
  diskType == "s3" || diskType == "azure_blob_storage" || diskType == "azure"

/-- The condition of the `isDiskTypeEncryptedObject` loop: a different disk
whose path is a prefix of the encrypted disk's path and whose type is an
object-storage type. -/
def encMatch (disk d : Disk) : Bool :=
  (!(d.name == disk.name)) && strHasPre disk.path d.path && isDiskTypeObject d.type

/-- The `for i, d := range disks` loop of `isDiskTypeEncryptedObject`,
tracking `underlyingIdx` (starting at -1) and `underlyingPath` (starting
empty), taking a matching disk whenever its path is greater than the one
recorded. -/
def encObjLoop (disk : Disk) : List Disk → Int → Int × String → Int × String
  | [], _, acc => acc
  | d :: rest, i, acc =>
    let acc1 :=
      if encMatch disk d then
        if strLtB acc.2 d.path then (i, d.path) else acc
      else acc
    encObjLoop disk rest (i + 1) acc1

/-- Model of `isDiskTypeEncryptedObject disk disks`. -/
def isDiskTypeEncryptedObject (disk : Disk) (disks : List Disk) : Bool :=
  if disk.type ≠ "encrypted" then false
  else decide (0 ≤ (encObjLoop disk disks 0 (-1, "")).1)

/-! ## DestinationLocator: `buildEmbeddedLocationS3` (src/pkg/backup/backuper.go) -/

/-- The fields of `net/url.URL` the locator writes. -/
structure URL where
  scheme : String
  host : String
  path : String
deriving DecidableEq

/-- The S3 config fields `buildEmbeddedLocationS3` reads. -/
structure S3Config where
  endpoint : String
  region : String
  bucket : String
  objectDiskPath : String
  forcePathStyle : Bool
  disableSSL : Bool

/-- Model of `buildEmbeddedLocationS3` up to the final `url.String()`:
the `url.URL` value the function builds.  `url.Parse` of an explicit
http(s) endpoint is an external call, passed in as `parseUrl`. -/
def buildEmbeddedLocationS3URL (parseUrl : String → URL) (s3 : S3Config) : URL :=
  let u0 : URL := { scheme := "https", host := "", path := "" }
  let u1 :=
    if strHasPre s3.endpoint "http" then
      let nu := parseUrl s3.endpoint
      { nu with path := pathJoin s3.bucket s3.objectDiskPath }
    else
      { u0 with host := s3.endpoint, path := pathJoin s3.bucket s3.objectDiskPath }
  let u2 := if s3.disableSSL then { u1 with scheme := "http" } else u1
  let u3 :=
    if u2.host = "" ∧ s3.region ≠ "" ∧ s3.forcePathStyle = true then
      { u2 with host := "s3." ++ s3.region ++ ".amazonaws.com"
                path := pathJoin s3.bucket s3.objectDiskPath }
    else u2
  if u3.host = "" ∧ s3.bucket ≠ "" ∧ s3.forcePathStyle = false then
    { u3 with host := s3.bucket ++ "." ++ "s3." ++ s3.region ++ ".amazonaws.com"
              path := s3.objectDiskPath }
  else u3

/-- Rendering of the built URL (Go `url.String()` restricted to the
scheme://host/path shape produced here). -/
def urlString (u : URL) : String :=
  u.scheme ++ "://" ++ u.host ++ (if strHasPre u.path "/" then u.path else "/" ++ u.path)

/-- Model of `buildEmbeddedLocationS3`: the string the Go function returns. -/
def buildEmbeddedLocationS3 (parseUrl : String → URL) (s3 : S3Config) : String :=
  urlString (buildEmbeddedLocationS3URL parseUrl s3)

/-! ## DiffResolver: `getTablesDiffFromLocal` / `getTablesDiffFromRemote`
(src/pkg/backup/backuper.go)

The Go result map `map[metadata.TableTitle]metadata.TableMetadata` is an
association list built by insertion (later inserts overwrite). -/

/-- `metadata.TableTitle`. -/
structure TableTitle where
  database : String
  table : String
deriving DecidableEq

/-- The fields of `metadata.TableMetadata` the diff resolvers read. -/
structure TableMetadata where
  database : String
  table : String
deriving DecidableEq

/-- The fields of `metadata.BackupMetadata` the diff resolvers read:
the backup name and its table manifest. -/
structure BackupMetadata where
  backupName : String
  tables : List TableTitle
deriving DecidableEq

/-- Go map insert: overwrite the key if present, else append. -/
def mapInsert (m : List (TableTitle × TableMetadata)) (k : TableTitle)
    (v : TableMetadata) : List (TableTitle × TableMetadata) :=
  if m.any (fun p => p.1 == k) then
    m.map fun p => if p.1 == k then (k, v) else p
  else m ++ [(k, v)]

/-- Both resolvers' final loop: index the listed tables by title. -/
def buildDiffMap (ts : List TableMetadata) : List (TableTitle × TableMetadata) :=
  ts.foldl (fun m t => mapInsert m { database := t.database, table := t.table } t) []

/-- Model of `getTablesDiffFromLocal`: read the local manifest of `diffFrom`;
if it lists tables, re-enumerate its table metadata (pattern-filtered, no
partition filter) and index it by title; a manifest with zero tables yields
the empty map. -/
def getTablesDiffFromLocal
    (readBackupMetadataLocal : String → Except String BackupMetadata)
    (getTableListByPatternLocal : String → String → Except String (List TableMetadata))
    (defaultDataPath diffFrom tablePattern : String) :
    Except String (List (TableTitle × TableMetadata)) :=
  match readBackupMetadataLocal diffFrom with
  | Except.error e => Except.error e
  | Except.ok diffFromBackup =>
    if diffFromBackup.tables.length ≠ 0 then
      let metadataPath := pathJoin (pathJoin (pathJoin defaultDataPath "backup") diffFrom) "metadata"
      match getTableListByPatternLocal metadataPath tablePattern with
      | Except.error e => Except.error e
      | Except.ok diffTablesList => Except.ok (buildDiffMap diffTablesList)
    else Except.ok []

/-- Model of `getTablesDiffFromRemote`: list the remote backups, take the
first whose name equals `diffFromRemote` exactly (the source loop breaks at
the first match), fail with `"<name> not found on remote storage"` when there
is none; a found backup with zero tables yields the empty map. -/
def getTablesDiffFromRemote
    (backupList : String → Except String (List BackupMetadata))
    (getTableListByPatternRemote : BackupMetadata → String → Except String (List TableMetadata))
    (diffFromRemote tablePattern : String) :
    Except String (List (TableTitle × TableMetadata)) :=
  match backupList diffFromRemote with
  | Except.error e => Except.error e
  | Except.ok l =>
    match l.find? (fun b => b.backupName == diffFromRemote) with
    | Option.none => Except.error (diffFromRemote ++ " not found on remote storage")
    | some diffRemoteMetadata =>
      if diffRemoteMetadata.tables.length ≠ 0 then
        match getTableListByPatternRemote diffRemoteMetadata tablePattern with
        | Except.error e => Except.error e
        | Except.ok diffTablesList => Except.ok (buildDiffMap diffTablesList)
      else Except.ok []

/-! ## Concrete fixtures used by counterexamples and witnesses -/

/-- A walk with a single 5-byte regular file. -/
def oneFileFS : String → List WalkItem := fun _ => [WalkItem.entry "/p/f" 5 true]

/-- A walk with one directory entry and four regular files of sizes 4, 7, 20, 1. -/
def fourFileFS : String → List WalkItem := fun _ =>
  [WalkItem.entry "/p" 0 false, WalkItem.entry "/p/a" 4 true, WalkItem.entry "/p/b" 7 true,
   WalkItem.entry "/p/c" 20 true, WalkItem.entry "/p/d" 1 true]

/-- A walk whose first callback reports a filesystem read error. -/
def errFS : String → List WalkItem := fun _ => [WalkItem.failure "permission denied"]

/-- An upload world where every collaborator succeeds. -/
def worldW : UploadWorld :=
  { chConnect := none, newBackupDestination := none, bdKind := "s3", bdConnect := none
    getLocalBackup := none, getDefaultPath := Except.ok "/var/lib", getDisks := Except.ok []
    stat := fun _ => none, parseSchemaPattern := fun _ _ => ([], none)
    tablePathEncode := id, fs := fun _ => [], compressedStreamUpload := fun _ _ _ => none
    marshalTable := fun _ _ => Except.ok "m", putFile := fun _ _ => none
    readFile := fun _ => Except.ok "b", removeOldBackups := none }

/-- A shard assignment that excludes table `a` and fails looking up any other
table. -/
def lookupFailAssign : ShardAssignment :=
  { inShard := fun _ n => if n = "a" then Except.ok false else Except.error "lookup failed" }

/-! # Theorems -/

/-! ## Shared lemmas -/

theorem noSchemaDowngrade_default (ts : List Table) :
    noSchemaDowngrade (defaultShardTypes ts) = true := by
  unfold noSchemaDowngrade defaultShardTypes
  rw [List.all_map, List.all_eq_true]
  intro t _
  by_cases h : t.skip <;> simp [Function.comp, h]

/-! ## C4: the concrete S3 embedded location -/

/-- C4: for the S3 configuration with empty endpoint, region us-east-1,
bucket mybucket, force-path-style false and object-disk sub-path backups,
`buildEmbeddedLocationS3` builds the URL with host
mybucket.s3.us-east-1.amazonaws.com and path backups. -/
theorem buildEmbeddedLocationS3_concrete (parseUrl : String → URL) :
    buildEmbeddedLocationS3URL parseUrl
        { endpoint := "", region := "us-east-1", bucket := "mybucket"
          objectDiskPath := "backups", forcePathStyle := false, disableSSL := false }
      = { scheme := "https", host := "mybucket.s3.us-east-1.amazonaws.com", path := "backups" }
    ∧ buildEmbeddedLocationS3 parseUrl
        { endpoint := "", region := "us-east-1", bucket := "mybucket"
          objectDiskPath := "backups", forcePathStyle := false, disableSSL := false }
      = "https://mybucket.s3.us-east-1.amazonaws.com/backups" :=
  ⟨rfl, rfl⟩

/-! ## C5: `separateParts` never surfaces a walk error -/

/-- C5: the source drops the value returned by `filepath.Walk`, so the error
component of `separateParts` is `nil` on every input; in particular on a walk
whose very first callback reports a read error, the call still returns
normally (with the batches built so far) instead of aborting. -/
theorem separateParts_errorAlwaysNil :
    (∀ (fs : String → List WalkItem) (basePath : String) (parts : List Part) (maxSize : Int),
      (separateParts fs basePath parts maxSize).2 = none)
    ∧ separateParts errFS "" [{ name := "p" }] 100 = ([], none) :=
  ⟨fun _ _ _ _ => rfl, by decide⟩

/-! ## C3: capability-check failure under a sharding policy -/

/-- C3: when a sharding policy is configured (`doesShard` true) and
`CanShardOperation` fails, `populateBackupShardField` returns exactly that
error, leaves every table at its default type, and downgrades no table to a
schema-only backup. -/
theorem populateBackupShardField_capabilityError (e : String) (bsPreset : Bool)
    (shardFuncByName : Except String Unit) (determineShards : Except String ShardAssignment)
    (tables : List Table) :
    populateBackupShardField true (some e) bsPreset shardFuncByName determineShards tables
      = (defaultShardTypes tables, some e)
    ∧ noSchemaDowngrade
        (populateBackupShardField true (some e) bsPreset shardFuncByName determineShards
          tables).1 = true :=
  ⟨rfl, noSchemaDowngrade_default tables⟩

/-! ## C6: no sharding policy configured -/

/-- C6: with no sharding policy configured (`doesShard` false),
`populateBackupShardField` returns no error, sets every non-skipped table to
a full backup and every skipped table to none, and assigns schema-only to no
table. -/
theorem populateBackupShardField_noSharding (canShardOperation : Option String)
    (bsPreset : Bool) (shardFuncByName : Except String Unit)
    (determineShards : Except String ShardAssignment) (tables : List Table) :
    populateBackupShardField false canShardOperation bsPreset shardFuncByName determineShards
        tables
      = (tables.map (fun t =>
          { t with backupType := if t.skip then ShardBackupType.none else ShardBackupType.full }),
          none)
    ∧ noSchemaDowngrade
        (populateBackupShardField false canShardOperation bsPreset shardFuncByName
          determineShards tables).1 = true :=
  ⟨rfl, noSchemaDowngrade_default tables⟩

/-! ## C2: remote diff reference not found -/

/-- C2: when the remote backup listing succeeds but contains no backup whose
name equals the requested diff-from name exactly, `getTablesDiffFromRemote`
returns the "not found on remote storage" error (and hence no diff map at
all, empty or otherwise). -/
theorem getTablesDiffFromRemote_notFound
    (backupList : String → Except String (List BackupMetadata))
    (getTableListByPatternRemote : BackupMetadata → String → Except String (List TableMetadata))
    (diffFromRemote tablePattern : String) (l : List BackupMetadata)
    (hl : backupList diffFromRemote = Except.ok l)
    (habsent : ∀ b ∈ l, b.backupName ≠ diffFromRemote) :
    getTablesDiffFromRemote backupList getTableListByPatternRemote diffFromRemote tablePattern
      = Except.error (diffFromRemote ++ " not found on remote storage") := by
  have hfind : l.find? (fun b => b.backupName == diffFromRemote) = Option.none := by
    rw [List.find?_eq_none]
    intro b hb
    simpa using habsent b hb
  simp only [getTablesDiffFromRemote, hl, hfind]

/-- Witness for C2 at a concrete listing that holds only a backup named
`other`. -/
theorem getTablesDiffFromRemote_notFound_witness :
    getTablesDiffFromRemote (fun _ => Except.ok [{ backupName := "other", tables := [] }])
        (fun _ _ => Except.ok []) "ref" "*"
      = Except.error ("ref" ++ " not found on remote storage") :=
  getTablesDiffFromRemote_notFound _ _ "ref" "*" [{ backupName := "other", tables := [] }]
    rfl (by decide)

/-! ## C7: empty reference manifest yields an empty diff map -/

/-- C7: in both diff variants, a reference backup whose manifest lists zero
tables yields the empty diff map with no error: locally when the manifest
read succeeds with no tables, remotely when the listing's exact-name match
has no tables. -/
theorem tablesDiff_emptyManifest :
    (∀ (readBackupMetadataLocal : String → Except String BackupMetadata)
       (getTableListByPatternLocal : String → String → Except String (List TableMetadata))
       (defaultDataPath diffFrom tablePattern : String) (meta : BackupMetadata),
      readBackupMetadataLocal diffFrom = Except.ok meta → meta.tables = [] →
      getTablesDiffFromLocal readBackupMetadataLocal getTableListByPatternLocal
        defaultDataPath diffFrom tablePattern = Except.ok [])
    ∧ (∀ (backupList : String → Except String (List BackupMetadata))
         (getTableListByPatternRemote : BackupMetadata → String →
           Except String (List TableMetadata))
         (diffFromRemote tablePattern : String) (l : List BackupMetadata) (b : BackupMetadata),
        backupList diffFromRemote = Except.ok l →
        l.find? (fun x => x.backupName == diffFromRemote) = some b → b.tables = [] →
        getTablesDiffFromRemote backupList getTableListByPatternRemote diffFromRemote
          tablePattern = Except.ok []) := by
  constructor
  · intro rd gt ddp name pat meta hr ht
    simp [getTablesDiffFromLocal, hr, ht]
  · intro bl gt name pat l b hl hf ht
    simp [getTablesDiffFromRemote, hl, hf, ht]

/-- Witness for C7: both variants at a concrete reference backup with an
empty table manifest. -/
theorem tablesDiff_emptyManifest_witness :
    getTablesDiffFromLocal (fun _ => Except.ok { backupName := "ref", tables := [] })
        (fun _ _ => Except.ok []) "/data" "ref" "*" = Except.ok []
    ∧ getTablesDiffFromRemote (fun _ => Except.ok [{ backupName := "ref", tables := [] }])
        (fun _ _ => Except.ok []) "ref" "*" = Except.ok [] :=
  ⟨tablesDiff_emptyManifest.1 _ _ _ _ _ { backupName := "ref", tables := [] } rfl rfl,
   tablesDiff_emptyManifest.2 _ _ _ _ [{ backupName := "ref", tables := [] }]
     { backupName := "ref", tables := [] } rfl (by decide) rfl⟩

/-! ## C10 lemmas: the shape of the table slice after `populateBackupShardField` -/

theorem tablesShapeOK_default (ts : List Table) :
    tablesShapeOK (defaultShardTypes ts) = true := by
  unfold tablesShapeOK defaultShardTypes
  rw [List.all_map, List.all_eq_true]
  intro t _
  by_cases h : t.skip <;> simp [Function.comp, h]

theorem assignLoop_shape (a : ShardAssignment) :
    ∀ ts : List Table, tablesShapeOK ts = true → tablesShapeOK (assignLoop a ts).1 = true := by
  intro ts
  induction ts with
  | nil => intro h; exact h
  | cons t rest ih =>
    intro h
    simp only [tablesShapeOK, List.all_cons, Bool.and_eq_true] at h
    obtain ⟨h1, h2⟩ := h
    have ih2 : ((assignLoop a rest).1.all fun t =>
        if t.skip then t.backupType == ShardBackupType.none
        else t.backupType == ShardBackupType.full || t.backupType == ShardBackupType.schema)
        = true := ih h2
    unfold assignLoop
    by_cases hs : t.skip
    · simp only [tablesShapeOK, if_pos hs, List.all_cons, Bool.and_eq_true]
      refine ⟨?_, ih2⟩
      simpa [hs] using h1
    · simp only [if_neg hs]
      cases hin : a.inShard t.database t.name with
      | error e =>
        simp only [tablesShapeOK, List.all_cons, Bool.and_eq_true]
        exact ⟨h1, h2⟩
      | ok fb =>
        simp only [tablesShapeOK, List.all_cons, Bool.and_eq_true]
        refine ⟨?_, ih2⟩
        by_cases hfb : fb
        · simpa [hfb] using h1
        · have hsf : t.skip = false := by simpa using hs
          simp [hfb, hsf]

theorem populateBackupShardField_shape (d : Bool) (cs : Option String) (bp : Bool)
    (sf : Except String Unit) (ds : Except String ShardAssignment) (tables : List Table) :
    tablesShapeOK (populateBackupShardField d cs bp sf ds tables).1 = true := by
  unfold populateBackupShardField
  cases d with
  | false => simpa using tablesShapeOK_default tables
  | true =>
    simp only [Bool.true_eq_false, if_false]
    cases cs with
    | some e => exact tablesShapeOK_default tables
    | none =>
      cases hsel : (if bp then Except.ok () else sf : Except String Unit) with
      | error e => exact tablesShapeOK_default tables
      | ok u =>
        cases ds with
        | error e => exact tablesShapeOK_default tables
        | ok a => exact assignLoop_shape a _ (tablesShapeOK_default tables)

theorem defaultShardTypes_mapBackupType (tables : List Table) (f : Table → ShardBackupType) :
    defaultShardTypes (tables.map fun t => { t with backupType := f t })
      = defaultShardTypes tables := by
  unfold defaultShardTypes
  rw [List.map_map]
  rfl

theorem populateBackupShardField_inputIndep (d : Bool) (cs : Option String) (bp : Bool)
    (sf : Except String Unit) (ds : Except String ShardAssignment) (tables : List Table)
    (f : Table → ShardBackupType) :
    populateBackupShardField d cs bp sf ds (tables.map fun t => { t with backupType := f t })
      = populateBackupShardField d cs bp sf ds tables := by
  unfold populateBackupShardField
  rw [defaultShardTypes_mapBackupType]

/-! ## C10: error behaviour of `populateBackupShardField` is non-atomic -/

/-- C10: whenever `populateBackupShardField` returns an error, the slice has
already been rewritten — every skipped table holds the none type and every
other table holds full or schema; the output never depends on the incoming
`BackupType` values (so they are not restored); and a per-table lookup
failure does leave an earlier table already downgraded to schema-only, as
the concrete two-table run shows. -/
theorem populateBackupShardField_errorState :
    (∀ (d : Bool) (cs : Option String) (bp : Bool) (sf : Except String Unit)
       (ds : Except String ShardAssignment) (tables : List Table),
        (populateBackupShardField d cs bp sf ds tables).2 ≠ none →
        tablesShapeOK (populateBackupShardField d cs bp sf ds tables).1 = true)
    ∧ (∀ (d : Bool) (cs : Option String) (bp : Bool) (sf : Except String Unit)
         (ds : Except String ShardAssignment) (tables : List Table)
         (f : Table → ShardBackupType),
        populateBackupShardField d cs bp sf ds
            (tables.map fun t => { t with backupType := f t })
          = populateBackupShardField d cs bp sf ds tables)
    ∧ populateBackupShardField true none true (Except.ok ()) (Except.ok lookupFailAssign)
        [{ database := "db", name := "a", skip := false, backupType := ShardBackupType.full },
         { database := "db", name := "b", skip := false, backupType := ShardBackupType.none }]
      = ([{ database := "db", name := "a", skip := false, backupType := ShardBackupType.schema },
          { database := "db", name := "b", skip := false, backupType := ShardBackupType.full }],
          some "lookup failed") :=
  ⟨fun d cs bp sf ds tables _ => populateBackupShardField_shape d cs bp sf ds tables,
   populateBackupShardField_inputIndep,
   by decide⟩

/-! ## C8: the legacy `Upload` pathway and `diffFrom` -/

/-- C8 counterexample: with remote storage configured as "none" and a
non-empty `diffFrom`, `Upload` returns no error at all (and performs
nothing), instead of the "diff-from is not supported yet" error the claim
promises for every non-empty `diffFrom`. -/
theorem Upload_noneStorage_cex :
    Upload worldW { remoteStorage := "none", maxFileSize := 100, archiveExt := "tar" }
      "bkp" "*" "somediff" false = ([], none) := by
  decide

/-- C8 (amended): when remote storage is not "none" and a backup name is
given, any non-empty `diffFrom` makes `Upload` return the "diff-from is not
supported yet" error with an empty effect trace — before connecting to
ClickHouse or the destination and without uploading anything. -/
theorem Upload_diffFrom_unsupported (w : UploadWorld) (cfg : UploadConfig)
    (backupName tablePattern diffFrom : String) (schemaOnly : Bool)
    (h1 : cfg.remoteStorage ≠ "none") (h2 : backupName ≠ "") (h3 : diffFrom ≠ "") :
    Upload w cfg backupName tablePattern diffFrom schemaOnly
      = ([], some "diff-from is not supported yet") := by
  unfold Upload
  rw [if_neg h1, if_neg h2, if_pos h3]

/-- Witness for C8's amended theorem at a concrete configuration. -/
theorem Upload_diffFrom_unsupported_witness :
    Upload worldW { remoteStorage := "s3", maxFileSize := 100, archiveExt := "tar" }
      "bkp" "*" "somediff" false = ([], some "diff-from is not supported yet") :=
  Upload_diffFrom_unsupported worldW
    { remoteStorage := "s3", maxFileSize := 100, archiveExt := "tar" }
    "bkp" "*" "somediff" false (by decide) (by decide) (by decide)

/-! ## C9 lemmas: the `isDiskTypeEncryptedObject` loop -/

theorem strLtB_empty_right (s : String) : strLtB s "" = false := by
  obtain ⟨data⟩ := s
  cases data with
  | nil => rfl
  | cons a as => rfl

theorem strLtB_empty_left (s : String) (h : s ≠ "") : strLtB "" s = true := by
  obtain ⟨data⟩ := s
  cases data with
  | nil => exact absurd rfl h
  | cons a as => rfl

theorem encObjLoop_ge (disk : Disk) :
    ∀ (l : List Disk) (i : Int) (acc : Int × String),
      0 ≤ i → 0 ≤ acc.1 → 0 ≤ (encObjLoop disk l i acc).1 := by
  intro l
  induction l with
  | nil => intro i acc _ hacc; exact hacc
  | cons d rest ih =>
    intro i acc hi hacc
    unfold encObjLoop
    by_cases hm : encMatch disk d = true
    · by_cases hlt : strLtB acc.2 d.path = true
      · simp only [hm, hlt, if_true]
        exact ih (i + 1) (i, d.path) (by omega) hi
      · simp only [hm, if_true, hlt, if_false]
        exact ih (i + 1) acc (by omega) hacc
    · simp only [hm, if_false]
      exact ih (i + 1) acc (by omega) hacc

theorem encObjLoop_complete (disk : Disk) :
    ∀ (l : List Disk) (i : Int) (acc : Int × String),
      0 ≤ i → (acc.2 ≠ "" → 0 ≤ acc.1) →
      (∃ d ∈ l, encMatch disk d = true ∧ d.path ≠ "") →
      0 ≤ (encObjLoop disk l i acc).1 := by
  intro l
  induction l with
  | nil => intro i acc _ _ hex; exact absurd hex (by simp)
  | cons d rest ih =>
    intro i acc hi hinv hex
    unfold encObjLoop
    obtain ⟨d0, hd0, hm0, hp0⟩ := hex
    rcases List.mem_cons.mp hd0 with rfl | hd0rest
    · by_cases hlt : strLtB acc.2 d0.path = true
      · simp only [hm0, hlt, if_true]
        exact encObjLoop_ge disk rest (i + 1) (i, d0.path) (by omega) hi
      · have hne : acc.2 ≠ "" := by
          intro h2
          exact hlt (h2 ▸ strLtB_empty_left d0.path hp0)
        simp only [hm0, if_true, hlt, if_false]
        exact encObjLoop_ge disk rest (i + 1) acc (by omega) (hinv hne)
    · by_cases hm : encMatch disk d = true
      · by_cases hlt : strLtB acc.2 d.path = true
        · simp only [hm, hlt, if_true]
          exact ih (i + 1) (i, d.path) (by omega) (fun _ => hi) ⟨d0, hd0rest, hm0, hp0⟩
        · simp only [hm, if_true, hlt, if_false]
          exact ih (i + 1) acc (by omega) hinv ⟨d0, hd0rest, hm0, hp0⟩
      · simp only [hm, if_false]
        exact ih (i + 1) acc (by omega) hinv ⟨d0, hd0rest, hm0, hp0⟩

theorem encObjLoop_sound (disk : Disk) :
    ∀ (l : List Disk) (i : Int) (acc : Int × String),
      acc.1 < 0 → 0 ≤ (encObjLoop disk l i acc).1 →
      ∃ d ∈ l, encMatch disk d = true ∧ d.path ≠ "" := by
  intro l
  induction l with
  | nil => intro i acc hneg hpos; exact absurd hpos (by simpa using hneg)
  | cons d rest ih =>
    intro i acc hneg hpos
    by_cases hm : encMatch disk d = true
    · by_cases hlt : strLtB acc.2 d.path = true
      · refine ⟨d, List.mem_cons_self d rest, hm, ?_⟩
        intro hp
        rw [hp, strLtB_empty_right] at hlt
        exact Bool.false_ne_true hlt
      · rw [encObjLoop] at hpos
        simp only [hm, if_true, hlt, if_false] at hpos
        obtain ⟨d0, hd0, hm0, hp0⟩ := ih (i + 1) acc hneg hpos
        exact ⟨d0, List.mem_cons_of_mem d hd0, hm0, hp0⟩
    · rw [encObjLoop] at hpos
      simp only [hm, if_false] at hpos
      obtain ⟨d0, hd0, hm0, hp0⟩ := ih (i + 1) acc hneg hpos
      exact ⟨d0, List.mem_cons_of_mem d hd0, hm0, hp0⟩

theorem encMatch_eq_true (disk d : Disk) :
    encMatch disk d = true ↔
      d.name ≠ disk.name ∧ strHasPre disk.path d.path = true
        ∧ isDiskTypeObject d.type = true := by
  simp [encMatch, and_assoc]

/-! ## C9 counterexample and amended theorem -/

/-- C9 counterexample: an encrypted disk over an object disk whose path is
the empty string.  The empty path is a prefix of the encrypted disk's path
and the disk's type is an object type, so the claimed iff promises `true`;
but the loop only records a disk when its path is strictly greater than the
running `underlyingPath`, which starts as the empty string, so the match is
never recorded and the function returns `false`. -/
theorem isDiskTypeEncryptedObject_emptyPath_cex :
    isDiskTypeEncryptedObject { name := "enc", path := "/data", type := "encrypted" }
        [{ name := "enc", path := "/data", type := "encrypted" },
         { name := "obj", path := "", type := "s3" }] = false
    ∧ ([{ name := "enc", path := "/data", type := "encrypted" },
        { name := "obj", path := "", type := "s3" }].any fun d =>
          encMatch { name := "enc", path := "/data", type := "encrypted" } d) = true := by
  decide

/-- C9 (amended): `isDiskTypeEncryptedObject` returns true iff the disk's
type is "encrypted" and some different disk of the list has a NONEMPTY path
that is a prefix of the encrypted disk's path and an object-storage type;
which of several such disks wins (greatest path) does not affect the boolean
result, but a matching disk with an empty path is never recorded. -/
theorem isDiskTypeEncryptedObject_iff (disk : Disk) (disks : List Disk) :
    isDiskTypeEncryptedObject disk disks = true ↔
      disk.type = "encrypted" ∧ ∃ d ∈ disks, d.name ≠ disk.name ∧ d.path ≠ ""
        ∧ strHasPre disk.path d.path = true ∧ isDiskTypeObject d.type = true := by
  unfold isDiskTypeEncryptedObject
  by_cases ht : disk.type = "encrypted"
  · rw [if_neg (by simp [ht])]
    constructor
    · intro h
      have hpos : 0 ≤ (encObjLoop disk disks 0 (-1, "")).1 := of_decide_eq_true h
      obtain ⟨d, hd, hm, hp⟩ := encObjLoop_sound disk disks 0 (-1, "") (by omega) hpos
      obtain ⟨hn, hpre, hobj⟩ := (encMatch_eq_true disk d).mp hm
      exact ⟨ht, d, hd, hn, hp, hpre, hobj⟩
    · rintro ⟨-, d, hd, hn, hp, hpre, hobj⟩
      apply decide_eq_true
      refine encObjLoop_complete disk disks 0 (-1, "") (by omega) (by simp) ?_
      exact ⟨d, hd, (encMatch_eq_true disk d).mpr ⟨hn, hpre, hobj⟩, hp⟩
  · rw [if_pos (by simpa using ht)]
    simp [ht]

/-! ## C1 lemmas: `separateParts` partitions the walk and bounds the batches -/

theorem walkPart_proj (basePath : String) (maxSize : Int) :
    ∀ (items : List WalkItem) (st : SepStateS),
      walkPart basePath maxSize (projState st) items
        = projState (walkPartS basePath maxSize st items) := by
  intro items
  induction items with
  | nil => intro st; rfl
  | cons it rest ih =>
    intro st
    cases it with
    | failure m => rfl
    | entry fp sz reg =>
      cases reg with
      | false => exact ih st
      | true =>
        by_cases hc : ((st.size + sz : Nat) : Int) > maxSize
        · have h2 := ih { size := 0 + sz, files := [] ++ [(trimPre fp basePath, sz)],
                          result := st.result ++ [st.files] }
          simp only [walkPart, walkPartS, projState] at h2 ⊢
          rw [if_pos hc, if_pos hc]
          simpa [List.map_append] using h2
        · have h2 := ih { size := st.size + sz, files := st.files ++ [(trimPre fp basePath, sz)],
                          result := st.result }
          simp only [walkPart, walkPartS, projState] at h2 ⊢
          rw [if_neg hc, if_neg hc]
          simpa [List.map_append] using h2

theorem walkPart_flatten (basePath : String) (maxSize : Int) :
    ∀ (items : List WalkItem) (st : SepState),
      (walkPart basePath maxSize st items).result.flatten
          ++ (walkPart basePath maxSize st items).files
        = st.result.flatten ++ st.files ++ walkedFiles basePath items := by
  intro items
  induction items with
  | nil => intro st; simp [walkPart, walkedFiles]
  | cons it rest ih =>
    intro st
    cases it with
    | failure m => simp [walkPart, walkedFiles]
    | entry fp sz reg =>
      cases reg with
      | false => simpa [walkPart, walkedFiles] using ih st
      | true =>
        by_cases hc : ((st.size + sz : Nat) : Int) > maxSize
        · have h2 := ih { size := 0 + sz, files := [] ++ [trimPre fp basePath],
                          result := st.result ++ [st.files] }
          simp only [walkPart, walkedFiles] at h2 ⊢
          rw [if_pos hc]
          simpa [List.flatten_append, List.append_assoc] using h2
        · have h2 := ih { size := st.size + sz, files := st.files ++ [trimPre fp basePath],
                          result := st.result }
          simp only [walkPart, walkedFiles] at h2 ⊢
          rw [if_neg hc]
          simpa [List.append_assoc] using h2

theorem sepFold_flatten (fs : String → List WalkItem) (basePath : String) (maxSize : Int) :
    ∀ (parts : List Part) (st : SepState),
      (parts.foldl (fun s p => walkPart basePath maxSize s (fs (pathJoin basePath p.name)))
          st).result.flatten
        ++ (parts.foldl (fun s p => walkPart basePath maxSize s (fs (pathJoin basePath p.name)))
            st).files
      = st.result.flatten ++ st.files
          ++ (parts.map fun p => walkedFiles basePath (fs (pathJoin basePath p.name))).flatten := by
  intro parts
  induction parts with
  | nil => intro st; simp
  | cons p rest ih =>
    intro st
    simp only [List.foldl_cons, List.map_cons, List.flatten_cons]
    rw [ih]
    rw [walkPart_flatten]
    simp [List.append_assoc]

theorem separateParts_flatten (fs : String → List WalkItem) (basePath : String)
    (parts : List Part) (maxSize : Int) :
    (separateParts fs basePath parts maxSize).1.flatten = allWalkedFiles fs basePath parts := by
  have h := sepFold_flatten fs basePath maxSize parts { size := 0, files := [], result := [] }
  simp only [List.flatten_nil, List.nil_append] at h
  simp only [separateParts, allWalkedFiles]
  by_cases hf : (sepRun fs basePath parts maxSize).files.length > 0
  · rw [if_pos hf]
    rw [List.flatten_append]
    simpa [sepRun] using h
  · rw [if_neg hf]
    have hnil : (sepRun fs basePath parts maxSize).files = [] := by
      rw [← List.length_eq_zero]
      omega
    have h3 : (sepRun fs basePath parts maxSize).result.flatten
        = (parts.map fun p => walkedFiles basePath (fs (pathJoin basePath p.name))).flatten := by
      have h4 := h
      rw [show (parts.foldl
          (fun s p => walkPart basePath maxSize s (fs (pathJoin basePath p.name)))
          { size := 0, files := [], result := [] }) = sepRun fs basePath parts maxSize
          from rfl] at h4
      rw [hnil, List.append_nil] at h4
      exact h4
    exact h3

theorem sepFold_proj (fs : String → List WalkItem) (basePath : String) (maxSize : Int) :
    ∀ (parts : List Part) (st : SepStateS),
      parts.foldl (fun s p => walkPart basePath maxSize s (fs (pathJoin basePath p.name)))
          (projState st)
        = projState (parts.foldl
            (fun s p => walkPartS basePath maxSize s (fs (pathJoin basePath p.name))) st) := by
  intro parts
  induction parts with
  | nil => intro st; rfl
  | cons p rest ih =>
    intro st
    simp only [List.foldl_cons]
    rw [walkPart_proj]
    exact ih _

theorem separateParts_eq_sized (fs : String → List WalkItem) (basePath : String)
    (parts : List Part) (maxSize : Int) :
    (separateParts fs basePath parts maxSize).1
      = (sizedBatches fs basePath parts maxSize).map (List.map Prod.fst) := by
  simp only [separateParts, sizedBatches, sepRun, sepRunS]
  rw [show ({ size := 0, files := [], result := [] } : SepState)
      = projState { size := 0, files := [], result := [] } from rfl]
  rw [sepFold_proj]
  by_cases hf : (parts.foldl
      (fun st p => walkPartS basePath maxSize st (fs (pathJoin basePath p.name)))
      { size := 0, files := [], result := [] }).files.length > 0
  · rw [if_pos (by simpa [projState] using hf), if_pos hf]
    simp [projState, List.map_append]
  · rw [if_neg (by simpa [projState] using hf), if_neg hf]
    simp [projState]

theorem batchOKb_of_le (maxSize : Int) (b : List (String × Nat))
    (h : (sumSizes b : Int) ≤ maxSize) : batchOKb maxSize b = true := by
  unfold batchOKb
  rw [Bool.or_eq_true]
  exact Or.inl (decide_eq_true h)

theorem batchOKb_singleton (maxSize : Int) (x : String) (s : Nat) :
    batchOKb maxSize [(x, s)] = true := by
  by_cases h : (s : Int) ≤ maxSize
  · exact batchOKb_of_le maxSize [(x, s)] (by simpa [sumSizes] using h)
  · unfold batchOKb
    rw [Bool.or_eq_true]
    exact Or.inr (decide_eq_true (by omega))

theorem sumSizes_push (b : List (String × Nat)) (x : String) (s : Nat) :
    sumSizes (b ++ [(x, s)]) = sumSizes b + s := by
  simp [sumSizes]

theorem walkPartS_good (basePath : String) (maxSize : Int) :
    ∀ (items : List WalkItem) (st : SepStateS), goodS maxSize st →
      goodS maxSize (walkPartS basePath maxSize st items) := by
  intro items
  induction items with
  | nil => intro st h; exact h
  | cons it rest ih =>
    intro st h
    obtain ⟨hsz, hcur, hres⟩ := h
    cases it with
    | failure m => exact ⟨hsz, hcur, hres⟩
    | entry fp sz reg =>
      cases reg with
      | false => exact ih st ⟨hsz, hcur, hres⟩
      | true =>
        by_cases hc : ((st.size + sz : Nat) : Int) > maxSize
        · have hst : goodS maxSize
              { size := 0 + sz, files := [] ++ [(trimPre fp basePath, sz)],
                result := st.result ++ [st.files] } := by
            refine ⟨by simp [sumSizes], by simpa using batchOKb_singleton maxSize _ sz, ?_⟩
            intro b hb
            rcases List.mem_append.mp hb with hb | hb
            · exact hres b hb
            · rw [List.mem_singleton.mp hb]
              exact hcur
          have h2 := ih _ hst
          simp only [walkPartS]
          rw [if_pos hc]
          exact h2
        · have hst : goodS maxSize
              { size := st.size + sz, files := st.files ++ [(trimPre fp basePath, sz)],
                result := st.result } := by
            refine ⟨by rw [sumSizes_push, hsz], ?_, hres⟩
            apply batchOKb_of_le
            rw [sumSizes_push, ← hsz]
            omega
          have h2 := ih _ hst
          simp only [walkPartS]
          rw [if_neg hc]
          exact h2

theorem sizedBatches_all (fs : String → List WalkItem) (basePath : String)
    (parts : List Part) (maxSize : Int) (hmax : 0 ≤ maxSize) :
    (sizedBatches fs basePath parts maxSize).all (fun b => batchOKb maxSize b) = true := by
  have hinit : goodS maxSize ({ size := 0, files := [], result := [] } : SepStateS) :=
    ⟨rfl, batchOKb_of_le maxSize [] (by simpa [sumSizes] using hmax), by simp⟩
  have hfold : ∀ (ps : List Part) (st : SepStateS), goodS maxSize st →
      goodS maxSize (ps.foldl
        (fun s p => walkPartS basePath maxSize s (fs (pathJoin basePath p.name))) st) := by
    intro ps
    induction ps with
    | nil => intro st h; exact h
    | cons p rest ih =>
      intro st h
      exact ih _ (walkPartS_good basePath maxSize _ st h)
  obtain ⟨-, hcur, hres⟩ := hfold parts _ hinit
  rw [List.all_eq_true]
  intro b hb
  have hb2 : b ∈ (if (sepRunS fs basePath parts maxSize).files.length > 0
      then (sepRunS fs basePath parts maxSize).result
            ++ [(sepRunS fs basePath parts maxSize).files]
      else (sepRunS fs basePath parts maxSize).result) := hb
  by_cases hf : (sepRunS fs basePath parts maxSize).files.length > 0
  · rw [if_pos hf] at hb2
    rcases List.mem_append.mp hb2 with hb3 | hb3
    · exact hres b hb3
    · rw [List.mem_singleton.mp hb3]
      exact hcur
  · rw [if_neg hf] at hb2
    exact hres b hb2

/-! ## C1: counterexample, amended theorem and witness -/

/-- C1 counterexample: with a negative `maxBatchBytes` (the Go limit is an
`int64` and may be negative) the very first file triggers a flush of the
still-empty current batch, so `separateParts` emits an empty batch whose
cumulative size 0 exceeds the limit -1 yet is not a single oversized file —
falsifying the claim's "for every maxBatchBytes". -/
theorem separateParts_negativeLimit_cex :
    (separateParts oneFileFS "" [{ name := "p" }] (-1)).1 = [[], ["/p/f"]]
    ∧ sizedBatches oneFileFS "" [{ name := "p" }] (-1) = [[], [("/p/f", 5)]]
    ∧ batchOKb (-1) [] = false := by
  decide

/-- C1 (amended): for every base path, part sequence, walk contents and
NONNEGATIVE `maxBatchBytes`, the batches of `separateParts` concatenate to
exactly the walked file list in order; they are the path projection of the
size-instrumented batches; and every such batch either fits within
`maxBatchBytes` or is a single file that is itself larger than the limit. -/
theorem separateParts_partition_sizeBound (fs : String → List WalkItem) (basePath : String)
    (parts : List Part) (maxSize : Int) (hmax : 0 ≤ maxSize) :
    ((separateParts fs basePath parts maxSize).1.flatten = allWalkedFiles fs basePath parts)
    ∧ ((separateParts fs basePath parts maxSize).1
        = (sizedBatches fs basePath parts maxSize).map (List.map Prod.fst))
    ∧ ((sizedBatches fs basePath parts maxSize).all (fun b => batchOKb maxSize b) = true) :=
  ⟨separateParts_flatten fs basePath parts maxSize,
   separateParts_eq_sized fs basePath parts maxSize,
   sizedBatches_all fs basePath parts maxSize hmax⟩

/-- Witness for C1's amended theorem: four files of sizes 4, 7, 20, 1 under
limit 10 — including a single 20-byte oversized batch. -/
theorem separateParts_partition_sizeBound_witness :
    ((separateParts fourFileFS "" [{ name := "p" }] 10).1.flatten
        = allWalkedFiles fourFileFS "" [{ name := "p" }])
    ∧ ((separateParts fourFileFS "" [{ name := "p" }] 10).1
        = (sizedBatches fourFileFS "" [{ name := "p" }] 10).map (List.map Prod.fst))
    ∧ ((sizedBatches fourFileFS "" [{ name := "p" }] 10).all (fun b => batchOKb 10 b) = true) :=
  separateParts_partition_sizeBound fourFileFS "" [{ name := "p" }] 10 (by decide)

end ClickhouseBackup
